import Mathlib

/-!
Shallow embedding of the WirelessSensorNode firmware (`src/main.c`) and
verification of its specification.

Machine integers are modelled as `Nat` with explicit `% 2^w` where the C code
relies on fixed-width wraparound (the LFSR state is a `uint16_t`, bytes are
`uint8_t`).  Hardware registers written by straight-line code are modelled as
explicit event traces; the single output line is a `Bool` level threaded
through the transmit routines.
-/

namespace WirelessSensorNode

/-- The avr-libc `_BV(n)` macro: `1 << n`. -/
def BV (n : Nat) : Nat := 1 <<< n

/-! ## Entropy / jitter generator (`rand_byte`, `mix_rand`, main.c lines 220-260) -/

/-- One iteration of the `for` loop body of `rand_byte` (main.c lines 228-245):
the new bit is built by successive `!new_bit` toggles for taps 15, 13, 12, 10,
then the 16-bit state is shifted left (wrapping at 2^16) and the new bit ORed
into the low end. -/
def lfsr_step (s : Nat) : Nat :=
  let nb : Nat := 0
  let nb := if s &&& BV 15 ≠ 0 then (if nb = 0 then 1 else 0) else nb
  let nb := if s &&& BV 13 ≠ 0 then (if nb = 0 then 1 else 0) else nb
  let nb := if s &&& BV 12 ≠ 0 then (if nb = 0 then 1 else 0) else nb
  let nb := if s &&& BV 10 ≠ 0 then (if nb = 0 then 1 else 0) else nb
  ((s <<< 1) % 65536) ||| nb

/-- `n` iterations of the `rand_byte` loop body. -/
def lfsr_iter : Nat → Nat → Nat
  | 0, s => s
  | n + 1, s => lfsr_iter n (lfsr_step s)

/-- `rand_byte` (main.c lines 221-247): zero-guard to `0xDEAD`, eight LFSR
steps, return the low byte (the `(uint8_t)` cast).  Returns
`(returned byte, new lfsr_state)`. -/
def rand_byte (s : Nat) : Nat × Nat :=
  let s0 := if s = 0 then 0xDEAD else s
  let s8 := lfsr_iter 8 s0
  (s8 % 256, s8)

/-- The LFSR state after `n` successive calls to `rand_byte`. -/
def rand_byte_iter : Nat → Nat → Nat
  | 0, s => s
  | n + 1, s => rand_byte_iter n (rand_byte s).2

/-- `mix_rand` (main.c lines 249-260): when the low bit of the sample `x` is
set, extract bits 15 and 3 of the state and, when they differ, flip both. -/
def mix_rand (x s : Nat) : Nat :=
  if x &&& 1 ≠ 0 then
    let tmp := (s &&& BV 15) >>> 15
    let tmp2 := (s &&& BV 3) >>> 3
    if tmp ≠ tmp2 then (s ^^^ BV 3) ^^^ BV 15 else s
  else s

/-- Spec-side rendering of one LFSR step, following §4.1 of the spec: the new
low bit is the XOR of the bits at tap positions 15, 13, 12, 10, the register
shifts left, and the new bit is inserted at the low end. -/
def lfsr_step_spec (s : Nat) : Nat :=
  let newBit : Bool := (s.testBit 15).xor ((s.testBit 13).xor ((s.testBit 12).xor (s.testBit 10)))
  ((s <<< 1) % 65536) ||| (if newBit then 1 else 0)

/-- `n` iterations of the spec-side LFSR step. -/
def lfsr_iter_spec : Nat → Nat → Nat
  | 0, s => s
  | n + 1, s => lfsr_iter_spec n (lfsr_step_spec s)

/-! ## Manchester transmitter (`transmit_byte`, `transmit`, main.c lines 163-218) -/

/-- The `for` loop of `transmit_byte` (main.c lines 165-183), emitting two
half-bit line levels per data bit.  The line is driven to the bit value for
the first half (`TX_PORT |=` / `TX_PORT &= ~`), then toggled (`TX_PORT ^=`)
for the second half; then `b >>= 1`.  Returns the emitted half-bit levels and
the final line level. -/
def transmit_byte_loop : Nat → Bool → Nat → List Bool × Bool
  | 0, line, _ => ([], line)
  | j + 1, _, b =>
    let firstHalf : Bool := decide (b &&& 1 ≠ 0)
    let secondHalf := !firstHalf
    let rest := transmit_byte_loop j secondHalf (b >>> 1)
    (firstHalf :: secondHalf :: rest.1, rest.2)

/-- `transmit_byte` (main.c lines 163-184): eight loop iterations, LSB first. -/
def transmit_byte (line : Bool) (b : Nat) : List Bool × Bool :=
  transmit_byte_loop 8 line b

/-- Successive `transmit_byte` calls over a byte list, threading the line. -/
def transmit_bytes (line : Bool) : List Nat → List Bool × Bool
  | [] => ([], line)
  | b :: bs =>
    let r1 := transmit_byte line b
    let r2 := transmit_bytes r1.2 bs
    (r1.1 ++ r2.1, r2.2)

/-- Spec-side Manchester encoding of one byte (§4.4 of the spec): bits
least-significant first, each bit as two half-bit levels, a 1-bit high then
low, a 0-bit low then high. -/
def manchester_encode_byte (b : Nat) : List Bool :=
  (List.range 8).flatMap (fun j => [b.testBit j, !(b.testBit j)])

/-- Modelled from the spec: the packet record of `sensor_node.h`
(`manchester_packet`), which is not under `src/`.  Fields per §3/§6 of the
spec: node_id, seq_no, reading_type, reading, checksum, in declaration
order. -/
structure Packet where
  node_id : Nat
  seq_no : Nat
  reading_type : Nat
  reading : Nat
  checksum : Nat
deriving DecidableEq, Repr

/-- Modelled from the spec: the raw byte layout of the packet
(`manchester_union.manchester_data` of `sensor_node.h`, not under `src/`).
Fields are concatenated in declaration order with no padding, low byte first
within multi-byte fields (§6).  Widths follow §6: node_id one byte, seq_no a
two-byte wrapping counter, reading_type one byte, reading the converter's
two-byte native word, checksum one byte. -/
def packet_bytes (p : Packet) : List Nat :=
  [p.node_id % 256,
   p.seq_no % 256, (p.seq_no / 256) % 256,
   p.reading_type % 256,
   p.reading % 256, (p.reading / 256) % 256,
   p.checksum % 256]

/-- Output-side hardware state touched by `transmit`: the radio power rail
(`RADIO_POWER_PORT` bit), whether the TX pin is driven (`DDRB` bit) and the
TX line level (`TX_PORT` bit). -/
structure TxState where
  radio_power : Bool
  line_driven : Bool
  line : Bool
deriving DecidableEq, Repr

/-- `transmit` (main.c lines 186-218): power up the radio and enable line
drive, store the checksum into the packet (`calculate_checksum` is modelled
as the parameter `cksum`, applied to the non-checksum fields), send four
`0xFF` preamble bytes, one `0x7F` byte, then every byte of the union layout;
toggle the line once more for the final half-bit, then power down the radio,
tri-state the line and drive it low.  Returns the emitted half-bit levels and
the final hardware state. -/
def transmit (cksum : Nat → Nat → Nat → Nat → Nat) (p : Packet) (st : TxState) :
    List Bool × TxState :=
  let st1 : TxState := { st with radio_power := true, line_driven := true }
  let p1 : Packet := { p with checksum := cksum p.node_id p.seq_no p.reading_type p.reading }
  let r := transmit_bytes st1.line ([0xFF, 0xFF, 0xFF, 0xFF, 0x7F] ++ packet_bytes p1)
  let finalLevel := !r.2
  (r.1 ++ [finalLevel], { radio_power := false, line_driven := false, line := false })

/-- Control-flow events of `transmit`, in program order. -/
inductive TxEvent
  | powerUpRadio
  | enableLineDrive
  | storeChecksum
  | sendByte (b : Nat)
  | finalToggle
  | powerDownRadio
  | tristateLine
  | driveLineLow
deriving DecidableEq, Repr

/-- The event trace of `transmit` (main.c lines 186-218) in program order:
the checksum store (line 193) happens after radio power-up and line-drive
enable but before the preamble loop (lines 196-199). -/
def transmit_events (cksum : Nat → Nat → Nat → Nat → Nat) (p : Packet) : List TxEvent :=
  let p1 : Packet := { p with checksum := cksum p.node_id p.seq_no p.reading_type p.reading }
  [TxEvent.powerUpRadio, TxEvent.enableLineDrive, TxEvent.storeChecksum]
  ++ ([0xFF, 0xFF, 0xFF, 0xFF, 0x7F].map TxEvent.sendByte)
  ++ ((packet_bytes p1).map TxEvent.sendByte)
  ++ [TxEvent.finalToggle, TxEvent.powerDownRadio, TxEvent.tristateLine, TxEvent.driveLineLow]

/-! ## Analog sampler (`do_adc_conversion`, `read_temperature`, main.c lines 67-103) -/

/-- Bit position of `REFS0` in `ADMUX` (avr-libc header for the ATtiny). -/
def REFS0 : Nat := 6

/-- Bit position of `ADEN` in `ADCSRA`. -/
def ADEN : Nat := 7

/-- Bit position of `ADIE` in `ADCSRA`. -/
def ADIE : Nat := 3

/-- `TEMP_SENSE_INPUT_AN_PIN` (main.c line 49): ADC channel 2. -/
def TEMP_SENSE_INPUT_AN_PIN : Nat := 2

/-- Hardware events of the analog sampling sequence, in program order. -/
inductive AdcEvent
  | powerUpSensor
  | configure (admux adcsra : Nat)
  | startConversion
  | disableAdc
  | powerDownSensor
deriving DecidableEq, Repr

/-- `do_adc_conversion` (main.c lines 67-75), after its wait has completed:
one conversion ran, and the low byte of the conversion word `adcw` (the
`(uint8_t)ADCW` cast) is mixed into the LFSR state `s`.  Returns the new
LFSR state and the events. -/
def do_adc_conversion (adcw s : Nat) : Nat × List AdcEvent :=
  (mix_rand (adcw % 256) s, [AdcEvent.startConversion])

/-- `read_temperature` (main.c lines 77-103), with the two hardware
conversion results supplied as `c1` and `c2` and the LFSR state `s` threaded
through.  Returns `(result, new LFSR state, event trace)`. -/
def read_temperature (c1 c2 s : Nat) : Nat × Nat × List AdcEvent :=
  let admux := BV REFS0 ||| TEMP_SENSE_INPUT_AN_PIN
  let adcsra := BV ADEN ||| BV ADIE ||| 6
  let r1 := do_adc_conversion c1 s
  let r2 := do_adc_conversion c2 r1.1
  let result := c2
  (result, r2.1,
    [AdcEvent.powerUpSensor, AdcEvent.configure admux adcsra]
    ++ r1.2 ++ r2.2
    ++ [AdcEvent.disableAdc, AdcEvent.powerDownSensor])

/-- Events of the wait phase inside `do_adc_conversion`. -/
inductive WaitEvent
  | sleepEnter
  | checkFlag (done : Bool)
deriving DecidableEq, Repr

/-- The wait phase of `do_adc_conversion` (main.c lines 68-73):
`sleep_mode()` is entered once, then `while (!adc_done) {}` re-checks the
flag in a busy loop with an empty body.  `n` is the number of checks that
observe the flag still clear before it is observed set. -/
def adc_wait (n : Nat) : List WaitEvent :=
  WaitEvent.sleepEnter ::
    (List.replicate n (WaitEvent.checkFlag false) ++ [WaitEvent.checkFlag true])

/-- Spec-side rendering of the wait loop as §5 of the spec describes it:
after each check that finds the flag clear, the routine re-enters the
low-power state before checking again. -/
def adc_wait_respec (n : Nat) : List WaitEvent :=
  WaitEvent.sleepEnter ::
    ((List.replicate n [WaitEvent.checkFlag false, WaitEvent.sleepEnter]).flatten
      ++ [WaitEvent.checkFlag true])

/-! ## Sleep scheduler (`deep_sleep`, main.c lines 105-130) -/

/-- `WDT_DURATION` (main.c line 105): watchdog period, seconds. -/
def WDT_DURATION : Nat := 2

/-- `SLEEP_TIME` (main.c line 106): target sleep duration, seconds. -/
def SLEEP_TIME : Nat := 234

/-- Events of `deep_sleep`, in program order. -/
inductive SleepEvent
  | wdtReset
  | enableWdtInt
  | sleepIter
  | disableWdtInt
deriving DecidableEq, Repr

/-- The `num_sleeps` computation of `deep_sleep` (main.c line 121), a
`uint8_t`: `(SLEEP_TIME / WDT_DURATION) + (rand_byte() & 7)` mod 256. -/
def deep_sleep_num_sleeps (s : Nat) : Nat :=
  (SLEEP_TIME / WDT_DURATION + ((rand_byte s).1 &&& 7)) % 256

/-- `deep_sleep` (main.c lines 108-130) with the LFSR state `s` threaded
through: reset the watchdog, enable its interrupt, run `num_sleeps`
sleep-mode iterations, disable the watchdog interrupt.  Returns the new LFSR
state and the event trace. -/
def deep_sleep (s : Nat) : Nat × List SleepEvent :=
  let r := rand_byte s
  let num_sleeps := (SLEEP_TIME / WDT_DURATION + (r.1 &&& 7)) % 256
  (r.2,
    [SleepEvent.wdtReset, SleepEvent.enableWdtInt]
    ++ List.replicate num_sleeps SleepEvent.sleepIter
    ++ [SleepEvent.disableWdtInt])

/-! ## Helper lemmas -/

lemma and_BV_ne_iff (s n : Nat) : (s &&& BV n ≠ 0) ↔ s.testBit n = true := by
  rw [BV, Nat.shiftLeft_eq, one_mul, Nat.and_two_pow]
  cases h : s.testBit n <;> simp [h, Nat.pow_eq_zero]

lemma extract_bit (s n : Nat) : (s &&& BV n) >>> n = (s.testBit n).toNat := by
  rw [BV, Nat.shiftLeft_eq, one_mul, Nat.and_two_pow, Nat.shiftRight_eq_div_pow]
  exact Nat.mul_div_cancel _ (pow_pos (by norm_num) n)

lemma lfsr_step_eq_spec (s : Nat) : lfsr_step s = lfsr_step_spec s := by
  cases h15 : s.testBit 15 <;> cases h13 : s.testBit 13 <;>
    cases h12 : s.testBit 12 <;> cases h10 : s.testBit 10 <;>
    simp [lfsr_step, lfsr_step_spec, and_BV_ne_iff, h15, h13, h12, h10]

lemma lfsr_iter_eq_spec (n : Nat) : ∀ s, lfsr_iter n s = lfsr_iter_spec n s := by
  induction n with
  | zero => intro s; rfl
  | succ n ih => intro s; rw [lfsr_iter, lfsr_iter_spec, lfsr_step_eq_spec, ih]

lemma or_eq_zero_parts {a b : Nat} (h : a ||| b = 0) : a = 0 ∧ b = 0 := by
  constructor <;>
  · apply Nat.eq_of_testBit_eq
    intro i
    have hi := congrArg (fun t => t.testBit i) h
    simp only [Nat.testBit_or, Nat.zero_testBit, Bool.or_eq_false_iff] at hi
    simp [Nat.zero_testBit, hi.1, hi.2]

lemma lfsr_step_lt (s : Nat) : lfsr_step s < 65536 := by
  have hstep : lfsr_step s < 2 ^ 16 := by
    rw [lfsr_step_eq_spec]
    simp only [lfsr_step_spec]
    refine Nat.or_lt_two_pow ?_ ?_
    · have h1 : (s <<< 1) % 65536 < 65536 := Nat.mod_lt _ (by norm_num)
      norm_num at h1 ⊢
      exact h1
    · split <;> norm_num
  norm_num at hstep
  exact hstep

lemma lfsr_step_ne_zero (s : Nat) (hlt : s < 65536) (hne : s ≠ 0) :
    lfsr_step s ≠ 0 := by
  intro h0
  simp only [lfsr_step] at h0
  obtain ⟨h1, h2⟩ := or_eq_zero_parts h0
  rw [Nat.shiftLeft_eq, pow_one] at h1
  have hs : s = 32768 := by omega
  subst hs
  revert h2
  decide

lemma lfsr_iter_inv (n : Nat) :
    ∀ s, s < 65536 → s ≠ 0 → lfsr_iter n s ≠ 0 ∧ lfsr_iter n s < 65536 := by
  induction n with
  | zero => intro s hlt hne; exact ⟨hne, hlt⟩
  | succ n ih =>
    intro s hlt hne
    rw [lfsr_iter]
    exact ih _ (lfsr_step_lt s) (lfsr_step_ne_zero s hlt hne)

lemma rand_byte_state_inv (s : Nat) (hlt : s < 65536) (hne : s ≠ 0) :
    (rand_byte s).2 ≠ 0 ∧ (rand_byte s).2 < 65536 := by
  have : (rand_byte s).2 = lfsr_iter 8 s := by simp [rand_byte, hne]
  rw [this]
  exact lfsr_iter_inv 8 s hlt hne

lemma rand_byte_iter_inv (n : Nat) :
    ∀ s, s < 65536 → s ≠ 0 → rand_byte_iter n s ≠ 0 ∧ rand_byte_iter n s < 65536 := by
  induction n with
  | zero => intro s hlt hne; exact ⟨hne, hlt⟩
  | succ n ih =>
    intro s hlt hne
    rw [rand_byte_iter]
    obtain ⟨h1, h2⟩ := rand_byte_state_inv s hlt hne
    exact ih _ h2 h1

/-! ## Claim theorems: entropy generator -/

/-- C4: `rand_byte` forces a zero state to the non-zero constant `0xDEAD`,
advances the state by exactly eight spec-side LFSR steps (new low bit = XOR of
bits 15, 13, 12, 10, shift left, insert at the low end) and returns the low 8
bits of the resulting state. -/
theorem rand_byte_correct (s : Nat) :
    rand_byte s = (lfsr_iter_spec 8 (if s = 0 then 0xDEAD else s) % 256,
                   lfsr_iter_spec 8 (if s = 0 then 0xDEAD else s)) ∧
    (0xDEAD : Nat) ≠ 0 := by
  refine ⟨?_, by norm_num⟩
  simp [rand_byte, lfsr_iter_eq_spec]

/-- C5: from any non-zero 16-bit state, a single LFSR step is non-zero, any
number of single steps stays non-zero, and any number of `rand_byte` calls
(256 in particular) never passes through the all-zero state. -/
theorem lfsr_nonzero_invariant (s n k : Nat) (hlt : s < 65536) (hne : s ≠ 0) :
    lfsr_step s ≠ 0 ∧ lfsr_iter k s ≠ 0 ∧ rand_byte_iter n s ≠ 0 :=
  ⟨lfsr_step_ne_zero s hlt hne, (lfsr_iter_inv k s hlt hne).1,
   (rand_byte_iter_inv n s hlt hne).1⟩

/-- Witness for C5 at state 1 with 256 `rand_byte` calls. -/
theorem lfsr_nonzero_invariant_witness :
    (1 : Nat) < 65536 ∧ (1 : Nat) ≠ 0 ∧
    (lfsr_step 1 ≠ 0 ∧ lfsr_iter 5 1 ≠ 0 ∧ rand_byte_iter 256 1 ≠ 0) :=
  ⟨by norm_num, by norm_num, lfsr_nonzero_invariant 1 256 5 (by norm_num) (by norm_num)⟩

lemma BV_eq (n : Nat) : BV n = 2 ^ n := by
  rw [BV, Nat.shiftLeft_eq, one_mul]

lemma mix_rand_eq (x s : Nat) :
    mix_rand x s =
      if x &&& 1 ≠ 0 ∧ s.testBit 15 ≠ s.testBit 3
      then (s ^^^ BV 3) ^^^ BV 15 else s := by
  simp only [mix_rand]
  by_cases hx : x &&& 1 = 0
  · rw [if_neg (by simp [hx]), if_neg (by simp [hx])]
  · rw [if_pos hx, extract_bit, extract_bit]
    by_cases hd : s.testBit 15 = s.testBit 3
    · have hEq : (s.testBit 15).toNat = (s.testBit 3).toNat := by rw [hd]
      rw [if_neg (by simp [hEq]), if_neg (by simp [hd])]
    · have hNe : (s.testBit 15).toNat ≠ (s.testBit 3).toNat := by
        cases hv : s.testBit 15 <;> cases hv3 : s.testBit 3 <;>
          simp_all
      rw [if_pos hNe, if_pos ⟨hx, hd⟩]

/-- C6: `mix_rand` leaves the state unchanged when the sample's low bit is
clear, or when bits 15 and 3 of the state agree; when the low bit is set and
bits 15 and 3 differ it flips exactly those two bits; every other bit is
always unchanged. -/
theorem mix_rand_correct (x s i : Nat) :
    (x &&& 1 = 0 → mix_rand x s = s) ∧
    (x &&& 1 ≠ 0 → s.testBit 15 = s.testBit 3 → mix_rand x s = s) ∧
    (x &&& 1 ≠ 0 → s.testBit 15 ≠ s.testBit 3 →
      (mix_rand x s).testBit 15 = !(s.testBit 15) ∧
      (mix_rand x s).testBit 3 = !(s.testBit 3)) ∧
    (i ≠ 3 → i ≠ 15 → (mix_rand x s).testBit i = s.testBit i) := by
  refine ⟨?_, ?_, ?_, ?_⟩
  · intro h
    rw [mix_rand_eq, if_neg (by simp [h])]
  · intro _ hd
    rw [mix_rand_eq, if_neg (by simp [hd])]
  · intro hx hd
    rw [mix_rand_eq, if_pos ⟨hx, hd⟩, BV_eq, BV_eq]
    constructor
    · rw [Nat.testBit_xor, Nat.testBit_xor,
        Nat.testBit_two_pow_of_ne (show (3 : Nat) ≠ 15 by norm_num),
        Nat.testBit_two_pow_self]
      cases s.testBit 15 <;> rfl
    · rw [Nat.testBit_xor, Nat.testBit_xor,
        Nat.testBit_two_pow_of_ne (show (15 : Nat) ≠ 3 by norm_num),
        Nat.testBit_two_pow_self]
      cases s.testBit 3 <;> rfl
  · intro hi3 hi15
    rw [mix_rand_eq]
    split
    · rw [BV_eq, BV_eq, Nat.testBit_xor, Nat.testBit_xor,
        Nat.testBit_two_pow_of_ne (Ne.symm hi3),
        Nat.testBit_two_pow_of_ne (Ne.symm hi15)]
      cases s.testBit i <;> rfl
    · rfl

/-- Witness for C6 at samples 2 and 1, state 32768, bit index 0, with every
hypothesis discharged. -/
theorem mix_rand_correct_witness :
    mix_rand 2 32768 = 32768 ∧
    ((mix_rand 1 32768).testBit 15 = !(Nat.testBit 32768 15) ∧
      (mix_rand 1 32768).testBit 3 = !(Nat.testBit 32768 3)) ∧
    (mix_rand 1 32768).testBit 0 = Nat.testBit 32768 0 :=
  ⟨(mix_rand_correct 2 32768 0).1 (by decide),
   (mix_rand_correct 1 32768 0).2.2.1 (by decide) (by decide),
   (mix_rand_correct 1 32768 0).2.2.2 (by decide) (by decide)⟩

/-- C10 (implicit): `mix_rand` preserves the non-zero invariant of the LFSR
state: a flip happens only when bits 15 and 3 differ, which leaves exactly
one of them set, so the result is never zero. -/
theorem mix_rand_preserves_nonzero (x s : Nat) (hne : s ≠ 0) : mix_rand x s ≠ 0 := by
  rw [mix_rand_eq]
  split
  · rename_i hcond
    obtain ⟨_, hd⟩ := hcond
    intro h0
    cases hv : s.testBit 15
    · have hb : ((s ^^^ BV 3) ^^^ BV 15).testBit 15 = true := by
        rw [BV_eq, BV_eq, Nat.testBit_xor, Nat.testBit_xor, hv,
          Nat.testBit_two_pow_of_ne (show (3 : Nat) ≠ 15 by norm_num),
          Nat.testBit_two_pow_self]
        rfl
      rw [h0] at hb
      simp [Nat.zero_testBit] at hb
    · have h3f : s.testBit 3 = false := by
        cases hv3 : s.testBit 3
        · rfl
        · rw [hv, hv3] at hd; exact absurd rfl hd
      have hb : ((s ^^^ BV 3) ^^^ BV 15).testBit 3 = true := by
        rw [BV_eq, BV_eq, Nat.testBit_xor, Nat.testBit_xor, h3f,
          Nat.testBit_two_pow_of_ne (show (15 : Nat) ≠ 3 by norm_num),
          Nat.testBit_two_pow_self]
        rfl
      rw [h0] at hb
      simp [Nat.zero_testBit] at hb
  · exact hne

/-- Witness for C10 at sample 1, state 32768. -/
theorem mix_rand_preserves_nonzero_witness :
    (32768 : Nat) ≠ 0 ∧ mix_rand 1 32768 ≠ 0 :=
  ⟨by norm_num, mix_rand_preserves_nonzero 1 32768 (by norm_num)⟩

/-! ## Claim theorems: Manchester transmitter -/

lemma decide_and_one (b : Nat) : decide (b &&& 1 ≠ 0) = b.testBit 0 := by
  rw [Nat.and_one_is_mod, Nat.testBit_zero]
  rcases Nat.mod_two_eq_zero_or_one b with h | h <;> simp [h]

lemma map_succ_flatMap {α : Type} (l : List Nat) (f : Nat → List α) :
    (l.map Nat.succ).flatMap f = l.flatMap (fun j => f (j + 1)) := by
  induction l with
  | nil => rfl
  | cons a l ih => simp [List.flatMap_cons, ih]

lemma transmit_byte_loop_levels (n : Nat) :
    ∀ b line, (transmit_byte_loop n line b).1 =
      (List.range n).flatMap (fun j => [b.testBit j, !(b.testBit j)]) := by
  induction n with
  | zero => intro b line; rfl
  | succ n ih =>
    intro b line
    rw [List.range_succ_eq_map]
    have hshift : ∀ j, (b >>> 1).testBit j = b.testBit (j + 1) := by
      intro j
      rw [Nat.shiftRight_one, ← Nat.testBit_succ]
    simp only [transmit_byte_loop, List.flatMap_cons, map_succ_flatMap]
    rw [ih]
    simp [decide_and_one, hshift]

lemma transmit_byte_levels (line : Bool) (b : Nat) :
    (transmit_byte line b).1 = manchester_encode_byte b := by
  rw [transmit_byte, manchester_encode_byte, transmit_byte_loop_levels]

lemma transmit_bytes_levels (bs : List Nat) : ∀ line,
    (transmit_bytes line bs).1 = bs.flatMap manchester_encode_byte := by
  induction bs with
  | nil => intro line; rfl
  | cons b bs ih =>
    intro line
    simp only [transmit_bytes, List.flatMap_cons]
    rw [transmit_byte_levels, ih]

/-- C2: `transmit_byte` sends the 8 bits of `b` least-significant-bit first,
each bit as two half-bit slots, a 1-bit high then (toggled) low, a 0-bit low
then (toggled) high; 16 half-bit levels in all. -/
theorem transmit_byte_manchester (line : Bool) (b : Nat) :
    (transmit_byte line b).1 = manchester_encode_byte b ∧
    (transmit_byte line b).1.length = 16 := by
  refine ⟨transmit_byte_levels line b, ?_⟩
  rw [transmit_byte_levels]
  have h8 : List.range 8 = [0, 1, 2, 3, 4, 5, 6, 7] := rfl
  rw [manchester_encode_byte, h8]
  simp [List.flatMap_cons]

/-- C1: `transmit` emits exactly the wire frame of four `0xFF` bytes, one
`0x7F` byte, every byte of the packet's raw layout in declaration order (with
the freshly stored checksum), then a single final half-bit transition; after
which the radio is powered down and the output line is tri-stated and driven
low. -/
theorem transmit_frame (cksum : Nat → Nat → Nat → Nat → Nat) (p : Packet) (st : TxState) :
    ∃ t : Bool,
      (transmit cksum p st).1 =
        (([0xFF, 0xFF, 0xFF, 0xFF, 0x7F] ++
          packet_bytes
            { p with checksum := cksum p.node_id p.seq_no p.reading_type p.reading }).flatMap
              manchester_encode_byte) ++ [t] ∧
      (transmit cksum p st).2 =
        { radio_power := false, line_driven := false, line := false } := by
  refine ⟨!(transmit_bytes st.line
      ([0xFF, 0xFF, 0xFF, 0xFF, 0x7F] ++
        packet_bytes
          { p with checksum := cksum p.node_id p.seq_no p.reading_type p.reading })).2,
    ?_, rfl⟩
  have h : (transmit cksum p st).1 =
      (transmit_bytes st.line
        ([0xFF, 0xFF, 0xFF, 0xFF, 0x7F] ++
          packet_bytes
            { p with checksum := cksum p.node_id p.seq_no p.reading_type p.reading })).1
      ++ [!(transmit_bytes st.line
        ([0xFF, 0xFF, 0xFF, 0xFF, 0x7F] ++
          packet_bytes
            { p with checksum := cksum p.node_id p.seq_no p.reading_type p.reading })).2] := rfl
  rw [h, transmit_bytes_levels]

/-! ## Claim theorems: checksum store ordering -/

/-- C8 is false as stated: the code stores the checksum before the preamble,
not between preamble and data.  At this concrete packet and checksum
function, the event trace of `transmit` differs from the spec's step order
(preamble, then checksum store, then data). -/
theorem checksum_after_preamble_counterexample :
    transmit_events (fun a b c d => (a + b + c + d) % 256) ⟨3, 1, 0, 512, 0⟩ ≠
      ([TxEvent.powerUpRadio, TxEvent.enableLineDrive]
        ++ ([0xFF, 0xFF, 0xFF, 0xFF, 0x7F].map TxEvent.sendByte)
        ++ [TxEvent.storeChecksum]
        ++ ((packet_bytes ⟨3, 1, 0, 512, 4⟩).map TxEvent.sendByte)
        ++ [TxEvent.finalToggle, TxEvent.powerDownRadio, TxEvent.tristateLine,
            TxEvent.driveLineLow]) := by
  decide

/-- C8 amended: the checksum is recomputed and stored inside `transmit`
before any frame byte (preamble included) is sent; it is the only
packet-field write in `transmit`, and the stored value — sent as the last
data byte of the frame — is computed from the final values of all other
fields. -/
theorem checksum_store_before_send (cksum : Nat → Nat → Nat → Nat → Nat) (p : Packet) :
    (transmit_events cksum p).take 3 =
      [TxEvent.powerUpRadio, TxEvent.enableLineDrive, TxEvent.storeChecksum] ∧
    ((transmit_events cksum p).drop 3).count TxEvent.storeChecksum = 0 ∧
    (transmit_events cksum p).count TxEvent.storeChecksum = 1 ∧
    (packet_bytes
        { p with checksum := cksum p.node_id p.seq_no p.reading_type p.reading }).getLast? =
      some (cksum p.node_id p.seq_no p.reading_type p.reading % 256) := by
  have hdrop : TxEvent.storeChecksum ∉ (transmit_events cksum p).drop 3 := by
    simp [transmit_events, packet_bytes]
  have hdrop0 : ((transmit_events cksum p).drop 3).count TxEvent.storeChecksum = 0 :=
    List.count_eq_zero.mpr hdrop
  refine ⟨rfl, hdrop0, ?_, rfl⟩
  have hsplit := List.take_append_drop 3 (transmit_events cksum p)
  calc (transmit_events cksum p).count TxEvent.storeChecksum
      = ((transmit_events cksum p).take 3 ++ (transmit_events cksum p).drop 3).count
          TxEvent.storeChecksum := by rw [hsplit]
    _ = ((transmit_events cksum p).take 3).count TxEvent.storeChecksum
          + ((transmit_events cksum p).drop 3).count TxEvent.storeChecksum :=
        List.count_append _ _ _
    _ = 1 := by rw [hdrop0]; rfl

/-! ## Claim theorems: analog sampler -/

/-- C3: `read_temperature` powers up the sensor, configures the converter
(reference, channel, prescaler, completion interrupt), runs two conversions,
disables the converter and powers the sensor down, in that order; it returns
the full-width raw value of the second conversion unchanged (the first
conversion's value never reaches the result), mixing both conversions' low
bytes into the LFSR. -/
theorem read_temperature_sequence (c1 c2 s : Nat) :
    (read_temperature c1 c2 s).1 = c2 ∧
    (read_temperature c1 c2 s).2.1 = mix_rand (c2 % 256) (mix_rand (c1 % 256) s) ∧
    (read_temperature c1 c2 s).2.2 =
      [AdcEvent.powerUpSensor,
       AdcEvent.configure (BV REFS0 ||| TEMP_SENSE_INPUT_AN_PIN) (BV ADEN ||| BV ADIE ||| 6),
       AdcEvent.startConversion, AdcEvent.startConversion,
       AdcEvent.disableAdc, AdcEvent.powerDownSensor] :=
  ⟨rfl, rfl, rfl⟩

/-- C9 is false as stated: after a wake that finds the completion flag still
clear, the wait loop busy-spins with an empty body instead of re-entering the
low-power state.  With one spurious check, the code's trace has no second
sleep entry, unlike the spec's re-sleeping trace. -/
theorem adc_wait_resleep_counterexample : adc_wait 1 ≠ adc_wait_respec 1 := by
  decide

/-- C9 amended: the wait re-checks its completion flag in a busy loop,
entering the low-power state exactly once (it does not re-enter it), and it
never proceeds while the flag is unset: the trace ends at the first
successful check and every earlier event is not a successful check. -/
theorem adc_wait_busywait (n : Nat) :
    (adc_wait n).count WaitEvent.sleepEnter = 1 ∧
    (adc_wait n).getLast? = some (WaitEvent.checkFlag true) ∧
    (∀ e ∈ (adc_wait n).dropLast, e ≠ WaitEvent.checkFlag true) := by
  refine ⟨?_, ?_, ?_⟩
  · simp [adc_wait, List.count_cons, List.count_append, List.count_replicate]
  · rw [adc_wait, ← List.cons_append, List.getLast?_concat]
  · intro e he
    rw [adc_wait, ← List.cons_append, List.dropLast_concat] at he
    rcases List.mem_cons.mp he with h | h
    · subst h; decide
    · have hrep := List.eq_of_mem_replicate h
      subst hrep; decide

/-- Witness for C9's amended theorem at two spurious checks. -/
theorem adc_wait_busywait_witness :
    (adc_wait 2).count WaitEvent.sleepEnter = 1 ∧
    (adc_wait 2).getLast? = some (WaitEvent.checkFlag true) ∧
    WaitEvent.sleepEnter ≠ WaitEvent.checkFlag true :=
  ⟨(adc_wait_busywait 2).1, (adc_wait_busywait 2).2.1,
   (adc_wait_busywait 2).2.2 WaitEvent.sleepEnter (by decide)⟩

/-! ## Claim theorems: sleep scheduler -/

/-- C7: `deep_sleep` computes its iteration count as
`SLEEP_TIME / WDT_DURATION` (234 / 2 = 117) plus the low three bits of the
`rand_byte` result, so the count always lies in [117, 124], and the sleep
loop runs exactly that many low-power iterations. -/
theorem deep_sleep_iterations (s : Nat) :
    deep_sleep_num_sleeps s = 234 / 2 + ((rand_byte s).1 &&& 7) ∧
    234 / 2 ≤ deep_sleep_num_sleeps s ∧
    deep_sleep_num_sleeps s ≤ 234 / 2 + 7 ∧
    (deep_sleep s).2.count SleepEvent.sleepIter = deep_sleep_num_sleeps s := by
  have hand : (rand_byte s).1 &&& 7 = (rand_byte s).1 % 8 := by
    have h := Nat.and_pow_two_sub_one_eq_mod (rand_byte s).1 3
    norm_num at h
    exact h
  have hlt : (rand_byte s).1 % 8 < 8 := Nat.mod_lt _ (by norm_num)
  have hns : deep_sleep_num_sleeps s = 117 + (rand_byte s).1 % 8 := by
    rw [deep_sleep_num_sleeps, SLEEP_TIME, WDT_DURATION, hand]
    omega
  refine ⟨?_, ?_, ?_, ?_⟩
  · rw [hns, hand]
  · rw [hns]; omega
  · rw [hns]; omega
  · rw [deep_sleep_num_sleeps]
    simp [deep_sleep, List.count_cons, List.count_append, List.count_replicate]

end WirelessSensorNode
